import Mathlib

/-!
Verification of the stranger-chat matchmaking and connection code.

The matchmaking HTTP handlers (src/app/api/matchmaking/route.ts) operate on a
Supabase table matchmaking_queue keyed by session_id.  We embed the table as a
list of rows and each Supabase statement as a pure function on that list.
PostgREST semantics that matter here: an UPDATE whose filters match zero rows
succeeds with no error (error stays null); an upsert with onConflict session_id
replaces the supplied columns of the conflicting row, keeping id and created_at.

The WebRTC hook (useWebRTC) and the ConnectionManager class are embedded as
small state machines further below.
-/

namespace Matchmaking

inductive ChatType where
  | text
  | video
deriving DecidableEq, Repr

/-- One row of the matchmaking_queue table. -/
structure QueueEntry where
  id : Nat
  session_id : String
  chat_type : ChatType
  matched_with : Option String
  matched_at : Option Nat
  created_at : Nat
deriving DecidableEq, Repr

/-- The JSON body produced by the route handlers. -/
structure MatchResponse where
  matched : Bool
  partnerId : Option String
  status : Option String
deriving DecidableEq, Repr

/-- Row transformer of the conditional claim
UPDATE matchmaking_queue SET matched_with = sid, matched_at = now
WHERE id = target AND matched_with IS NULL (route.ts lines 42-49). -/
def claimRow (target : Nat) (sid : String) (now : Nat) (e : QueueEntry) : QueueEntry :=
  if e.id == target && e.matched_with == none then
    { e with matched_with := some sid, matched_at := some now }
  else e

/-- The conditional claim: returns the updated table and the number of rows the
filter matched.  PostgREST reports no error when zero rows match, so the
route's updateError is null in either case. -/
def updateClaim (store : List QueueEntry) (target : Nat) (sid : String) (now : Nat) :
    List QueueEntry × Nat :=
  (store.map (claimRow target sid now),
   (store.filter (fun e => e.id == target && e.matched_with == none)).length)

/-- Filter of the candidate query (route.ts lines 29-37):
same chat_type, matched_with null, different session_id. -/
def eligible (sid : String) (ct : ChatType) (e : QueueEntry) : Bool :=
  e.chat_type == ct && e.matched_with == none && !(e.session_id == sid)

/-- Head of an ascending-by-created_at ordering of a row list (first row in
table order among those with minimal created_at, matching a stable sort). -/
def oldestFirst : List QueueEntry → Option QueueEntry
  | [] => none
  | e :: es =>
    match oldestFirst es with
    | none => some e
    | some m => if e.created_at ≤ m.created_at then some e else some m

/-- ORDER BY created_at ASC LIMIT 1 over the eligible rows. -/
def selectCandidate (store : List QueueEntry) (sid : String) (ct : ChatType) :
    Option QueueEntry :=
  oldestFirst (store.filter (eligible sid ct))

/-- SELECT * WHERE session_id = sid (maybeSingle), route.ts lines 16-20. -/
def findExisting (store : List QueueEntry) (sid : String) : Option QueueEntry :=
  store.find? (fun e => e.session_id == sid)

/-- Upsert with onConflict session_id (route.ts lines 52-59 and 68-75): when a
row with this session_id exists its supplied columns are overwritten (id and
created_at are not in the payload and keep their stored values); otherwise a
fresh row is inserted with defaulted id and created_at. -/
def upsertEntry (store : List QueueEntry) (sid : String) (ct : ChatType)
    (mw : Option String) (ma : Option Nat) (createdAtNew freshId : Nat) :
    List QueueEntry :=
  if store.any (fun e => e.session_id == sid) then
    store.map (fun e =>
      if e.session_id == sid then
        { e with chat_type := ct, matched_with := mw, matched_at := ma }
      else e)
  else
    store ++ [{ id := freshId, session_id := sid, chat_type := ct,
                matched_with := mw, matched_at := ma, created_at := createdAtNew }]

/-- Continuation of POST from line 39, after the candidate pm has been read
(the awaits at lines 29 and 42 are the suspension points where a concurrent
request may interleave).  The conditional update never errors, so the handler
always takes the success branch when a candidate was selected. -/
def tryMatchResume (store : List QueueEntry) (sid : String) (ct : ChatType)
    (now freshId : Nat) (pm : QueueEntry) : List QueueEntry × MatchResponse :=
  let store1 := (updateClaim store pm.id sid now).1
  let store2 := upsertEntry store1 sid ct (some pm.session_id) (some now) now freshId
  (store2, ⟨true, some pm.session_id, none⟩)

/-- POST /api/matchmaking executed without interference (route.ts lines 5-85).
now is the timestamp; freshId the id a fresh insert would receive. -/
def tryMatch (store : List QueueEntry) (sid : String) (ct : ChatType)
    (now freshId : Nat) : List QueueEntry × MatchResponse :=
  match findExisting store sid with
  | some e =>
    if e.matched_with.isSome then
      (store, ⟨true, e.matched_with, none⟩)
    else
      match selectCandidate store sid ct with
      | some pm => tryMatchResume store sid ct now freshId pm
      | none => (upsertEntry store sid ct none none now freshId,
                 ⟨false, none, some "searching"⟩)
  | none =>
    match selectCandidate store sid ct with
    | some pm => tryMatchResume store sid ct now freshId pm
    | none => (upsertEntry store sid ct none none now freshId,
               ⟨false, none, some "searching"⟩)

/-- GET /api/matchmaking (route.ts lines 87-117): a pure read. -/
def pollMatch (store : List QueueEntry) (sid : String) :
    List QueueEntry × MatchResponse :=
  match findExisting store sid with
  | some e =>
    if e.matched_with.isSome then (store, ⟨true, e.matched_with, none⟩)
    else (store, ⟨false, none, some "searching"⟩)
  | none => (store, ⟨false, none, some "idle"⟩)

/-- DELETE /api/matchmaking (route.ts lines 119-138). -/
def cancel (store : List QueueEntry) (sid : String) : List QueueEntry :=
  store.filter (fun e => !(e.session_id == sid))

/-- Number of rows for one session id. -/
def countFor (sid : String) (store : List QueueEntry) : Nat :=
  (store.filter (fun e => e.session_id == sid)).length

/-- Table invariant: session_id is a unique key. -/
def uniqueSessions (store : List QueueEntry) : Prop :=
  (store.map QueueEntry.session_id).Nodup

/-- A sequence of POST calls for one session; each list element supplies the
timestamp and the fresh id for that call. -/
def tryMatchIter (sid : String) (ct : ChatType) (store : List QueueEntry)
    (ps : List (Nat × Nat)) : List QueueEntry :=
  ps.foldl (fun st p => (tryMatch st sid ct p.1 p.2).1) store

end Matchmaking

namespace Webrtc

/-- Room identifier of useWebRTC (part_005 line 463):
roomId = [myId, partnerId].sort().join(hyphen) — the two ids in sorted order
joined by a hyphen. -/
def roomId (myId partnerId : String) : String :=
  if myId ≤ partnerId then myId ++ "-" ++ partnerId else partnerId ++ "-" ++ myId

/-- The realtime channel both sides open for signaling (part_005 line 464). -/
def channelName (myId partnerId : String) : String :=
  "webrtc:" ++ roomId myId partnerId

/-- Initiator election (part_005 line 457): isInitiatorRef.current is the
lexicographic comparison myId < partnerId. -/
def isInitiator (myId partnerId : String) : Bool :=
  myId < partnerId

/-- The slice of peer-connection state that the ICE-candidate handling touches:
whether a remote description has been set, the candidates handed to
addIceCandidate in order, and pendingCandidatesRef. -/
structure PeerConn where
  remoteDescription : Bool
  applied : List Nat
  pending : List Nat
deriving DecidableEq, Repr

/-- Signaling events relevant to candidate buffering: an ice-candidate
broadcast (with its addressee) and the moment setRemoteDescription succeeds
inside the offer or answer handler. -/
inductive SignalEv where
  | iceCandidate (dest : String) (c : Nat)
  | remoteDescriptionSet
deriving DecidableEq, Repr

/-- addPendingCandidates (part_005 lines 401-414): when a remote description
is present, take a copy of the pending buffer, clear it, and add every copied
candidate; otherwise do nothing. -/
def addPendingCandidates (p : PeerConn) : PeerConn :=
  if p.remoteDescription then
    { p with pending := [], applied := p.applied ++ p.pending }
  else p

/-- The ice-candidate broadcast handler (part_005 lines 541-554): drop
envelopes not addressed to us; apply immediately when a remote description is
set; otherwise push onto pendingCandidatesRef. -/
def handleIceCandidate (myId : String) (p : PeerConn) (dest : String) (c : Nat) :
    PeerConn :=
  if dest != myId then p
  else if p.remoteDescription then { p with applied := p.applied ++ [c] }
  else { p with pending := p.pending ++ [c] }

/-- The offer and answer handlers (part_005 lines 512-513 and 534-535):
setRemoteDescription followed at once by addPendingCandidates. -/
def applyRemoteDescription (p : PeerConn) : PeerConn :=
  addPendingCandidates { p with remoteDescription := true }

def stepSignal (myId : String) (p : PeerConn) : SignalEv → PeerConn
  | SignalEv.iceCandidate dest c => handleIceCandidate myId p dest c
  | SignalEv.remoteDescriptionSet => applyRemoteDescription p

def runSignal (myId : String) (p : PeerConn) (evs : List SignalEv) : PeerConn :=
  evs.foldl (stepSignal myId) p

/-- Initial candidate state of a negotiation (part_005 line 458). -/
def initPeer : PeerConn :=
  ⟨false, [], []⟩

end Webrtc

namespace ConnMgr

/-- ConnectionState from part_003 line 3. -/
inductive ConnectionState where
  | idle
  | connecting
  | connected
  | reconnecting
  | disconnected
  | failed
deriving DecidableEq, Repr

/-- The retry-relevant part of ConnectionConfig (part_003 lines 5-11); delays
are rationals since retryBackoffMultiplier is 1.5. -/
structure ConnectionConfig where
  maxRetries : Nat
  retryDelay : Rat
  retryBackoffMultiplier : Rat
deriving DecidableEq, Repr

/-- Observable state of a ConnectionManager: the private state field plus the
log of states passed to notifyListeners, one per delivered change. -/
structure CMState where
  state : ConnectionState
  notifications : List ConnectionState
deriving DecidableEq, Repr

/-- setState (part_003 lines 37-42): write the state and notify listeners only
when the value actually changes. -/
def setState (cm : CMState) (s : ConnectionState) : CMState :=
  if cm.state ≠ s then ⟨s, cm.notifications ++ [s]⟩ else cm

/-- Iteration of notifyListeners (part_003 lines 49-51) over the listener set
in insertion order, with JS exception semantics made explicit: a listener
either returns or throws, and Set.forEach propagates a thrown exception
immediately, skipping the listeners not yet visited.  Returns the indices of
the listeners that were invoked and the propagated exception, if any. -/
def notifyGo (s : ConnectionState) (i : Nat) :
    List (ConnectionState → Except String Unit) → List Nat × Option String
  | [] => ([], none)
  | f :: fs =>
    match f s with
    | Except.ok _ =>
      let rest := notifyGo s (i + 1) fs
      (i :: rest.1, rest.2)
    | Except.error e => ([i], some e)

/-- notifyListeners: deliver the state to every listener in order until one
throws. -/
def notifyListeners (listeners : List (ConnectionState → Except String Unit))
    (s : ConnectionState) : List Nat × Option String :=
  notifyGo s 0 listeners

/-- What one retry(operation) call produces: the returned value or thrown
lastError (none models the null lastError of a zero-attempt run), the delays
passed to setTimeout before each rescheduled attempt, the arguments of the
onRetry callback invocations, and the manager state afterwards. -/
structure RetryOutcome (E T : Type) where
  result : Except (Option E) T
  delays : List Rat
  onRetryCalls : List Nat
  final : CMState
deriving Repr

/-- The while loop of retry (part_003 lines 57-81), retryCount = k, with
remaining = maxRetries - retryCount as the structural measure; op k is the
observed outcome of attempt k+1 (the Promise.race of the operation against
the per-attempt timeout).  On failure with attempts remaining the loop calls
onRetry(retryCount) and sleeps retryDelay * multiplier ^ (retryCount - 1);
when attempts run out it falls through to setState(failed) and throws the
last error (part_003 lines 83-84). -/
def retryLoop {E T : Type} (cfg : ConnectionConfig) (op : Nat → Except E T) :
    Nat → Nat → Option E → CMState → RetryOutcome E T
  | 0, _, last, cm =>
    ⟨Except.error last, [], [], setState cm ConnectionState.failed⟩
  | remaining + 1, k, _, cm =>
    let cm1 := setState cm
      (if k == 0 then ConnectionState.connecting else ConnectionState.reconnecting)
    match op k with
    | Except.ok t =>
      ⟨Except.ok t, [], [], setState cm1 ConnectionState.connected⟩
    | Except.error e =>
      match remaining with
      | 0 => ⟨Except.error (some e), [], [], setState cm1 ConnectionState.failed⟩
      | r + 1 =>
        let d := cfg.retryDelay * cfg.retryBackoffMultiplier ^ k
        let rest := retryLoop cfg op (r + 1) (k + 1) (some e) cm1
        ⟨rest.result, d :: rest.delays, (k + 1) :: rest.onRetryCalls, rest.final⟩

/-- retry(operation, onRetry) from a given manager state. -/
def retry {E T : Type} (cfg : ConnectionConfig) (op : Nat → Except E T)
    (cm : CMState) : RetryOutcome E T :=
  retryLoop cfg op cfg.maxRetries 0 none cm

/-- A subscriber that throws on every delivery. -/
def throwingListener : ConnectionState → Except String Unit :=
  fun _ => Except.error "boom"

/-- A subscriber that returns normally on every delivery. -/
def quietListener : ConnectionState → Except String Unit :=
  fun _ => Except.ok ()

end ConnMgr

namespace Matchmaking

/-- A waiting text-chat row used in concrete scenarios. -/
def W0 : QueueEntry :=
  ⟨0, "w", ChatType.text, none, none, 0⟩

/-- A younger waiting text-chat row (created later than W0). -/
def W1 : QueueEntry :=
  ⟨1, "v", ChatType.text, none, none, 3⟩

end Matchmaking

namespace Webrtc

theorem roomId_eq_minmax (a b : String) :
    roomId a b = min a b ++ "-" ++ max a b := by
  unfold roomId
  rcases le_or_lt a b with h | h
  · rw [if_pos h, min_eq_left h, max_eq_right h]
  · rw [if_neg (not_le.mpr h), min_eq_right h.le, max_eq_left h.le]

end Webrtc

/-- C5: the derived room/channel name is the two session ids in sorted order
joined by a hyphen, and the derivation is symmetric: the name computed from
(A, B) equals the name computed from (B, A), so both sides independently
compute the identical channel name. -/
theorem webrtc_room_name_symmetric (a b : String) :
    Webrtc.roomId a b = Webrtc.roomId b a ∧
    Webrtc.roomId a b = min a b ++ "-" ++ max a b ∧
    Webrtc.channelName a b = Webrtc.channelName b a := by
  refine ⟨?_, Webrtc.roomId_eq_minmax a b, ?_⟩
  · rw [Webrtc.roomId_eq_minmax, Webrtc.roomId_eq_minmax, min_comm, max_comm]
  · unfold Webrtc.channelName
    rw [Webrtc.roomId_eq_minmax, Webrtc.roomId_eq_minmax, min_comm, max_comm]

/-- C6: for distinct session ids exactly one of the two participants is
elected initiator, namely the side whose id sorts lexicographically first;
the election is a pure local comparison, with no message exchange. -/
theorem webrtc_initiator_election (a b : String) (h : a ≠ b) :
    (Webrtc.isInitiator a b = true ↔ a < b) ∧
    ((Webrtc.isInitiator a b = true ∧ Webrtc.isInitiator b a = false) ∨
     (Webrtc.isInitiator b a = true ∧ Webrtc.isInitiator a b = false)) := by
  constructor
  · simp [Webrtc.isInitiator]
  · rcases lt_or_gt_of_ne h with hlt | hgt
    · left
      constructor
      · simp [Webrtc.isInitiator, hlt]
      · simp [Webrtc.isInitiator, not_lt.mpr hlt.le]
    · right
      constructor
      · simp [Webrtc.isInitiator, hgt]
      · simp [Webrtc.isInitiator, not_lt.mpr hgt.le]

/-- Witness for C6 at the concrete ids a and b. -/
theorem webrtc_initiator_election_inst :
    (Webrtc.isInitiator "a" "b" = true ↔ ("a" : String) < "b") ∧
    ((Webrtc.isInitiator "a" "b" = true ∧ Webrtc.isInitiator "b" "a" = false) ∨
     (Webrtc.isInitiator "b" "a" = true ∧ Webrtc.isInitiator "a" "b" = false)) :=
  webrtc_initiator_election "a" "b" (by decide)

namespace Webrtc

theorem runSignal_preDescription (myId : String) (cs : List Nat) :
    ∀ ap pd, runSignal myId ⟨false, ap, pd⟩ (cs.map (SignalEv.iceCandidate myId)) =
      ⟨false, ap, pd ++ cs⟩ := by
  induction cs with
  | nil => intro ap pd; simp [runSignal]
  | cons c cs ih =>
    intro ap pd
    have h1 : stepSignal myId ⟨false, ap, pd⟩ (SignalEv.iceCandidate myId c) =
        ⟨false, ap, pd ++ [c]⟩ := by
      simp [stepSignal, handleIceCandidate]
    simp only [List.map_cons, runSignal, List.foldl_cons]
    rw [show List.foldl (stepSignal myId) (stepSignal myId ⟨false, ap, pd⟩
          (SignalEv.iceCandidate myId c)) (cs.map (SignalEv.iceCandidate myId)) =
        runSignal myId (stepSignal myId ⟨false, ap, pd⟩ (SignalEv.iceCandidate myId c))
          (cs.map (SignalEv.iceCandidate myId)) from rfl, h1, ih]
    simp

theorem runSignal_postDescription (myId : String) (cs : List Nat) :
    ∀ ap pd, runSignal myId ⟨true, ap, pd⟩ (cs.map (SignalEv.iceCandidate myId)) =
      ⟨true, ap ++ cs, pd⟩ := by
  induction cs with
  | nil => intro ap pd; simp [runSignal]
  | cons c cs ih =>
    intro ap pd
    have h1 : stepSignal myId ⟨true, ap, pd⟩ (SignalEv.iceCandidate myId c) =
        ⟨true, ap ++ [c], pd⟩ := by
      simp [stepSignal, handleIceCandidate]
    simp only [List.map_cons, runSignal, List.foldl_cons]
    rw [show List.foldl (stepSignal myId) (stepSignal myId ⟨true, ap, pd⟩
          (SignalEv.iceCandidate myId c)) (cs.map (SignalEv.iceCandidate myId)) =
        runSignal myId (stepSignal myId ⟨true, ap, pd⟩ (SignalEv.iceCandidate myId c))
          (cs.map (SignalEv.iceCandidate myId)) from rfl, h1, ih]
    simp

end Webrtc

/-- C7: ICE candidates addressed to the local peer that arrive before the
remote description is set are buffered in arrival order (and none is applied);
when the remote description is set the buffer is drained exactly once, in the
original arrival order, with no duplicates and no loss, the buffer is cleared
by the drain, and candidates arriving afterwards are applied immediately: the
final applied sequence is exactly cs1 ++ cs2 and the buffer is empty. -/
theorem webrtc_candidate_buffering (myId : String) (cs1 cs2 : List Nat) :
    (Webrtc.runSignal myId Webrtc.initPeer
        (cs1.map (Webrtc.SignalEv.iceCandidate myId))).pending = cs1 ∧
    (Webrtc.runSignal myId Webrtc.initPeer
        (cs1.map (Webrtc.SignalEv.iceCandidate myId))).applied = [] ∧
    Webrtc.runSignal myId Webrtc.initPeer
        (cs1.map (Webrtc.SignalEv.iceCandidate myId) ++
          Webrtc.SignalEv.remoteDescriptionSet ::
          cs2.map (Webrtc.SignalEv.iceCandidate myId)) =
      ⟨true, cs1 ++ cs2, []⟩ := by
  have hpre := Webrtc.runSignal_preDescription myId cs1 [] []
  refine ⟨by rw [Webrtc.initPeer, hpre]; simp, by rw [Webrtc.initPeer, hpre], ?_⟩
  have hsplit : Webrtc.runSignal myId Webrtc.initPeer
      (cs1.map (Webrtc.SignalEv.iceCandidate myId) ++
        Webrtc.SignalEv.remoteDescriptionSet ::
        cs2.map (Webrtc.SignalEv.iceCandidate myId)) =
      Webrtc.runSignal myId
        (Webrtc.stepSignal myId
          (Webrtc.runSignal myId Webrtc.initPeer
            (cs1.map (Webrtc.SignalEv.iceCandidate myId)))
          Webrtc.SignalEv.remoteDescriptionSet)
        (cs2.map (Webrtc.SignalEv.iceCandidate myId)) := by
    simp [Webrtc.runSignal, List.foldl_append]
  rw [hsplit, Webrtc.initPeer, hpre]
  have hdrain : Webrtc.stepSignal myId ⟨false, [], [] ++ cs1⟩
      Webrtc.SignalEv.remoteDescriptionSet = ⟨true, cs1, []⟩ := by
    simp [Webrtc.stepSignal, Webrtc.applyRemoteDescription, Webrtc.addPendingCandidates]
  rw [hdrain, Webrtc.runSignal_postDescription]

/-- C10: setState is a no-op, with no notification, when the new state equals
the current one; on an actual change it records the state and notifies exactly
once, and a repeated identical setState adds nothing further. -/
theorem connection_setState_no_duplicate (cm : ConnMgr.CMState)
    (s : ConnMgr.ConnectionState) :
    (cm.state = s → ConnMgr.setState cm s = cm) ∧
    (cm.state ≠ s →
      (ConnMgr.setState cm s).state = s ∧
      (ConnMgr.setState cm s).notifications = cm.notifications ++ [s] ∧
      ConnMgr.setState (ConnMgr.setState cm s) s = ConnMgr.setState cm s) := by
  constructor
  · intro h
    simp [ConnMgr.setState, h]
  · intro h
    simp [ConnMgr.setState, h]

/-- Witness for C10: repeating the current state notifies nobody; a real
change is recorded and notified once. -/
theorem connection_setState_no_duplicate_inst :
    ConnMgr.setState ⟨ConnMgr.ConnectionState.idle, []⟩ ConnMgr.ConnectionState.idle =
      ⟨ConnMgr.ConnectionState.idle, []⟩ ∧
    (ConnMgr.setState ⟨ConnMgr.ConnectionState.idle, []⟩
        ConnMgr.ConnectionState.connecting).notifications =
      [ConnMgr.ConnectionState.connecting] := by
  constructor
  · exact (connection_setState_no_duplicate ⟨ConnMgr.ConnectionState.idle, []⟩
      ConnMgr.ConnectionState.idle).1 rfl
  · have h := ((connection_setState_no_duplicate ⟨ConnMgr.ConnectionState.idle, []⟩
      ConnMgr.ConnectionState.connecting).2 (by decide)).2.1
    simpa using h

namespace ConnMgr

theorem notifyGo_stops (e : String) (s : ConnectionState)
    (post : List (ConnectionState → Except String Unit)) :
    ∀ (pre : List (ConnectionState → Except String Unit)) (i : Nat),
      (∀ f ∈ pre, f s = Except.ok ()) →
      notifyGo s i (pre ++ (fun _ => Except.error e) :: post) =
        (List.range' i (pre.length + 1), some e) := by
  intro pre
  induction pre with
  | nil =>
    intro i _
    simp [notifyGo, List.range']
  | cons f fs ih =>
    intro i h
    have hf : f s = Except.ok () := h f (List.mem_cons_self f fs)
    have hrest := ih (i + 1) (fun g hg => h g (List.mem_cons_of_mem f hg))
    simp only [List.cons_append, notifyGo, hf, List.append_eq]
    rw [hrest]
    simp [List.range']

end ConnMgr

/-- C9 counterexample: with a throwing subscriber registered before a normal
one, notifyListeners invokes only the first; the second subscriber never
receives the notification, refuting the claim that one subscriber's exception
does not break delivery to the others. -/
theorem notify_counterexample :
    (ConnMgr.notifyListeners [ConnMgr.throwingListener, ConnMgr.quietListener]
        ConnMgr.ConnectionState.connected).1 = [0] ∧
    1 ∉ (ConnMgr.notifyListeners [ConnMgr.throwingListener, ConnMgr.quietListener]
        ConnMgr.ConnectionState.connected).1 := by
  constructor
  · rfl
  · intro h
    simp [ConnMgr.notifyListeners, ConnMgr.notifyGo, ConnMgr.throwingListener] at h

/-- C9 amended: notifyListeners delivers the state to subscribers in
registration order only up to and including the first subscriber that throws;
that exception propagates out of the iteration and the remaining subscribers
are not notified. -/
theorem notify_stops_at_first_throw
    (pre post : List (ConnMgr.ConnectionState → Except String Unit))
    (e : String) (s : ConnMgr.ConnectionState)
    (hpre : ∀ f ∈ pre, f s = Except.ok ()) :
    ConnMgr.notifyListeners (pre ++ (fun _ => Except.error e) :: post) s =
      (List.range (pre.length + 1), some e) := by
  unfold ConnMgr.notifyListeners
  rw [ConnMgr.notifyGo_stops e s post pre 0 hpre, List.range_eq_range']

/-- Witness for C9 amended: one quiet subscriber, then a thrower, then another
quiet subscriber; exactly the first two are invoked and the error propagates. -/
theorem notify_stops_at_first_throw_inst :
    ConnMgr.notifyListeners
        [ConnMgr.quietListener, (fun _ => Except.error "boom"), ConnMgr.quietListener]
        ConnMgr.ConnectionState.connected = ([0, 1], some "boom") := by
  have h := notify_stops_at_first_throw [ConnMgr.quietListener] [ConnMgr.quietListener]
    "boom" ConnMgr.ConnectionState.connected
    (by intro f hf; rw [List.mem_singleton] at hf; subst hf; rfl)
  simpa using h

namespace ConnMgr

theorem setState_state (cm : CMState) (s : ConnectionState) :
    (setState cm s).state = s := by
  unfold setState
  split
  · rfl
  · next h => exact not_ne_iff.mp h

theorem range_map_shift {α : Type} (g : Nat → α) (m : Nat) :
    (List.range (m + 1)).map g = g 0 :: (List.range m).map (fun i => g (i + 1)) := by
  rw [List.range_succ_eq_map, List.map_cons, List.map_map]
  rfl

theorem retryLoop_fail (E T : Type) (cfg : ConnectionConfig) (f : Nat → E) :
    ∀ (r k : Nat) (last : Option E) (cm : CMState),
      ((retryLoop cfg (fun i => (Except.error (f i) : Except E T)) r k last cm).delays =
        (List.range (r - 1)).map
          (fun i => cfg.retryDelay * cfg.retryBackoffMultiplier ^ (k + i))) ∧
      ((retryLoop cfg (fun i => (Except.error (f i) : Except E T)) r k last cm).onRetryCalls =
        (List.range (r - 1)).map (fun i => k + 1 + i)) ∧
      ((retryLoop cfg (fun i => (Except.error (f i) : Except E T)) r k last cm).final.state =
        ConnectionState.failed) ∧
      ((retryLoop cfg (fun i => (Except.error (f i) : Except E T)) r k last cm).result =
        Except.error (if r = 0 then last else some (f (k + r - 1)))) := by
  intro r
  induction r with
  | zero =>
    intro k last cm
    refine ⟨rfl, rfl, setState_state cm ConnectionState.failed, rfl⟩
  | succ n ih =>
    intro k last cm
    cases n with
    | zero =>
      refine ⟨rfl, rfl, setState_state _ ConnectionState.failed, by simp [retryLoop]⟩
    | succ m =>
      have hstep :
          retryLoop cfg (fun i => (Except.error (f i) : Except E T)) (m + 2) k last cm =
            ⟨(retryLoop cfg (fun i => (Except.error (f i) : Except E T)) (m + 1) (k + 1)
                (some (f k)) (setState cm (if k == 0 then ConnectionState.connecting
                  else ConnectionState.reconnecting))).result,
             cfg.retryDelay * cfg.retryBackoffMultiplier ^ k ::
               (retryLoop cfg (fun i => (Except.error (f i) : Except E T)) (m + 1) (k + 1)
                (some (f k)) (setState cm (if k == 0 then ConnectionState.connecting
                  else ConnectionState.reconnecting))).delays,
             (k + 1) ::
               (retryLoop cfg (fun i => (Except.error (f i) : Except E T)) (m + 1) (k + 1)
                (some (f k)) (setState cm (if k == 0 then ConnectionState.connecting
                  else ConnectionState.reconnecting))).onRetryCalls,
             (retryLoop cfg (fun i => (Except.error (f i) : Except E T)) (m + 1) (k + 1)
                (some (f k)) (setState cm (if k == 0 then ConnectionState.connecting
                  else ConnectionState.reconnecting))).final⟩ := rfl
      obtain ⟨ih1, ih2, ih3, ih4⟩ := ih (k + 1) (some (f k))
        (setState cm (if k == 0 then ConnectionState.connecting
          else ConnectionState.reconnecting))
      rw [hstep]
      refine ⟨?_, ?_, ih3, ?_⟩
      · show cfg.retryDelay * cfg.retryBackoffMultiplier ^ k ::
            (retryLoop cfg (fun i => (Except.error (f i) : Except E T)) (m + 1) (k + 1)
              (some (f k)) _).delays = _
        rw [ih1]
        have h0 : m + 2 - 1 = m + 1 := rfl
        rw [h0, range_map_shift (fun i => cfg.retryDelay * cfg.retryBackoffMultiplier ^ (k + i))]
        have hfe : (fun i => cfg.retryDelay * cfg.retryBackoffMultiplier ^ (k + (i + 1))) =
            (fun i => cfg.retryDelay * cfg.retryBackoffMultiplier ^ (k + 1 + i)) := by
          funext i
          have : k + (i + 1) = k + 1 + i := by omega
          rw [this]
        simp [hfe]
      · show (k + 1) ::
            (retryLoop cfg (fun i => (Except.error (f i) : Except E T)) (m + 1) (k + 1)
              (some (f k)) _).onRetryCalls = _
        rw [ih2]
        have h0 : m + 2 - 1 = m + 1 := rfl
        rw [h0, range_map_shift (fun i => k + 1 + i)]
        have hfe : (fun i => k + 1 + (i + 1)) = (fun i => k + 1 + 1 + i) := by
          funext i
          omega
        simp [hfe]
      · show (retryLoop cfg (fun i => (Except.error (f i) : Except E T)) (m + 1) (k + 1)
              (some (f k)) _).result = _
        rw [ih4]
        have h1 : k + 1 + (m + 1) - 1 = k + (m + 2) - 1 := by omega
        simp [h1]

end ConnMgr

/-- C8 counterexample: with maxRetries = 3, retryDelay = 1000 and multiplier
1.5 a permanently failing operation schedules exactly two retry delays, 1000
and 1500; the delay schedule is not the three-element 1000, 1500, 2250 the
claim states. -/
theorem retry_delays_counterexample :
    (ConnMgr.retry ⟨3, 1000, 3 / 2⟩ (fun i => (Except.error i : Except Nat Unit))
        ⟨ConnMgr.ConnectionState.idle, []⟩).delays = [1000, 1500] ∧
    (ConnMgr.retry ⟨3, 1000, 3 / 2⟩ (fun i => (Except.error i : Except Nat Unit))
        ⟨ConnMgr.ConnectionState.idle, []⟩).delays ≠ [1000, 1500, 2250] := by
  constructor
  · show (1000 : Rat) * (3 / 2) ^ 0 :: (1000 : Rat) * (3 / 2) ^ 1 :: [] = [1000, 1500]
    norm_num
  · intro h
    have h2 : (ConnMgr.retry ⟨3, 1000, 3 / 2⟩
        (fun i => (Except.error i : Except Nat Unit))
        ⟨ConnMgr.ConnectionState.idle, []⟩).delays.length = 2 := rfl
    rw [h] at h2
    simp at h2

/-- C8 (amended): for every failing attempt k (1-based) with attempts
remaining, the wait scheduled before attempt k+1 is
retryDelay * multiplier ^ (k - 1) and onRetry is invoked with k, so a
permanently failing operation under maxRetries = m produces the delay schedule
retryDelay * multiplier ^ i for i < m - 1 (m - 1 delays, not m); after
exhausting the attempts the manager state is failed and the last error is
thrown.  With maxRetries = 3, retryDelay = 1000 and multiplier 1.5 the
schedule is 1000, 1500. -/
theorem retry_backoff_schedule (E T : Type) (cfg : ConnMgr.ConnectionConfig)
    (f : Nat → E) (cm : ConnMgr.CMState) :
    ((ConnMgr.retry cfg (fun i => (Except.error (f i) : Except E T)) cm).delays =
      (List.range (cfg.maxRetries - 1)).map
        (fun i => cfg.retryDelay * cfg.retryBackoffMultiplier ^ i)) ∧
    ((ConnMgr.retry cfg (fun i => (Except.error (f i) : Except E T)) cm).onRetryCalls =
      (List.range (cfg.maxRetries - 1)).map (fun i => i + 1)) ∧
    ((ConnMgr.retry cfg (fun i => (Except.error (f i) : Except E T)) cm).final.state =
      ConnMgr.ConnectionState.failed) ∧
    (1 ≤ cfg.maxRetries →
      (ConnMgr.retry cfg (fun i => (Except.error (f i) : Except E T)) cm).result =
        Except.error (some (f (cfg.maxRetries - 1)))) := by
  obtain ⟨h1, h2, h3, h4⟩ :=
    ConnMgr.retryLoop_fail E T cfg f cfg.maxRetries 0 none cm
  refine ⟨?_, ?_, h3, ?_⟩
  · rw [ConnMgr.retry, h1]
    have hfe : (fun i => cfg.retryDelay * cfg.retryBackoffMultiplier ^ (0 + i)) =
        (fun i => cfg.retryDelay * cfg.retryBackoffMultiplier ^ i) := by
      funext i
      rw [Nat.zero_add]
    rw [hfe]
  · rw [ConnMgr.retry, h2]
    have hfe : (fun i => 0 + 1 + i) = (fun i => i + 1) := by
      funext i
      omega
    rw [hfe]
  · intro hm
    rw [ConnMgr.retry, h4, if_neg (by omega)]
    have : 0 + cfg.maxRetries - 1 = cfg.maxRetries - 1 := by omega
    rw [this]

/-- Witness for C8 at maxRetries = 3, retryDelay = 1000, multiplier 1.5: the
run fails with the error of attempt 3 and schedules delays 1000, 1500. -/
theorem retry_backoff_schedule_inst :
    (ConnMgr.retry ⟨3, 1000, 3 / 2⟩ (fun i => (Except.error i : Except Nat Unit))
        ⟨ConnMgr.ConnectionState.idle, []⟩).result = Except.error (some 2) ∧
    (ConnMgr.retry ⟨3, 1000, 3 / 2⟩ (fun i => (Except.error i : Except Nat Unit))
        ⟨ConnMgr.ConnectionState.idle, []⟩).final.state =
      ConnMgr.ConnectionState.failed := by
  have h := retry_backoff_schedule Nat Unit ⟨3, 1000, 3 / 2⟩ (fun i => i)
    ⟨ConnMgr.ConnectionState.idle, []⟩
  exact ⟨by simpa using h.2.2.2 (by norm_num), h.2.2.1⟩

namespace Matchmaking

theorem claimRow_session_id (target : Nat) (sid : String) (now : Nat) (e : QueueEntry) :
    (claimRow target sid now e).session_id = e.session_id := by
  unfold claimRow
  split <;> rfl

theorem claimRow_id (target : Nat) (sid : String) (now : Nat) (e : QueueEntry) :
    (claimRow target sid now e).id = e.id := by
  unfold claimRow
  split <;> rfl

theorem claimRow_matched (target : Nat) (sid : String) (now : Nat) (e : QueueEntry)
    (h : e.matched_with ≠ none) : claimRow target sid now e = e := by
  have hb : (e.matched_with == none) = false := beq_eq_false_iff_ne.mpr h
  simp [claimRow, hb]

theorem claimRow_hit (target : Nat) (sid : String) (now : Nat) (e : QueueEntry)
    (hid : e.id = target) (hm : e.matched_with = none) :
    claimRow target sid now e =
      { e with matched_with := some sid, matched_at := some now } := by
  simp [claimRow, hid, hm]

theorem updateClaim_noop (store : List QueueEntry) (target : Nat) (sid : String)
    (now : Nat) (h : ∀ e ∈ store, e.id = target → e.matched_with ≠ none) :
    updateClaim store target sid now = (store, 0) := by
  unfold updateClaim
  have hmap : ∀ (l : List QueueEntry),
      (∀ e ∈ l, e.id = target → e.matched_with ≠ none) →
      l.map (claimRow target sid now) = l := by
    intro l
    induction l with
    | nil => intro _; rfl
    | cons e es ih =>
      intro hl
      have he : claimRow target sid now e = e := by
        by_cases hid : e.id = target
        · exact claimRow_matched target sid now e (hl e (List.mem_cons_self e es) hid)
        · simp [claimRow, beq_eq_false_iff_ne.mpr hid]
      rw [List.map_cons, he, ih (fun x hx => hl x (List.mem_cons_of_mem e hx))]
  have hfil : store.filter (fun e => e.id == target && e.matched_with == none) = [] := by
    rw [List.filter_eq_nil_iff]
    intro e he hpe
    rw [Bool.and_eq_true] at hpe
    exact h e he (beq_iff_eq.mp hpe.1) (beq_iff_eq.mp hpe.2)
  rw [hmap store h, hfil]
  rfl

end Matchmaking

/-- C1: the conditional claim writes matchedWith only while it is still null,
and for two competing claims on the same waiting entry E by sessions a and b,
in either serialization (a and b are symmetric below) the first claim matches
at least one row and records E as claimed, while the second claim's
conditional update matches zero rows and leaves the table untouched. -/
theorem matchmaking_conditional_claim_exclusive (store : List Matchmaking.QueueEntry)
    (E : Matchmaking.QueueEntry) (a b : String) (now1 now2 : Nat)
    (hE : E ∈ store) (hnull : E.matched_with = none) (_hab : a ≠ b) :
    (∀ (t : Nat) (s : String) (n : Nat) (e : Matchmaking.QueueEntry),
        e.matched_with ≠ none → Matchmaking.claimRow t s n e = e) ∧
    1 ≤ (Matchmaking.updateClaim store E.id a now1).2 ∧
    { E with matched_with := some a, matched_at := some now1 } ∈
      (Matchmaking.updateClaim store E.id a now1).1 ∧
    Matchmaking.updateClaim (Matchmaking.updateClaim store E.id a now1).1 E.id b now2 =
      ((Matchmaking.updateClaim store E.id a now1).1, 0) := by
  refine ⟨fun t s n e h => Matchmaking.claimRow_matched t s n e h, ?_, ?_, ?_⟩
  · have hmem : E ∈ store.filter (fun e => e.id == E.id && e.matched_with == none) := by
      rw [List.mem_filter]
      refine ⟨hE, ?_⟩
      rw [Bool.and_eq_true]
      exact ⟨beq_iff_eq.mpr rfl, by rw [hnull]; rfl⟩
    have hpos := List.length_pos.mpr (List.ne_nil_of_mem hmem)
    exact hpos
  · have hhit := Matchmaking.claimRow_hit E.id a now1 E rfl hnull
    rw [← hhit]
    exact List.mem_map_of_mem _ hE
  · apply Matchmaking.updateClaim_noop
    intro e he hid
    obtain ⟨e0, he0, rfl⟩ := List.mem_map.mp he
    by_cases hm0 : e0.matched_with = none
    · have hid0 : e0.id = E.id := by
        rw [← Matchmaking.claimRow_id E.id a now1 e0]
        exact hid
      rw [Matchmaking.claimRow_hit E.id a now1 e0 hid0 hm0]
      simp
    · rw [Matchmaking.claimRow_matched E.id a now1 e0 hm0]
      exact hm0

/-- Witness for C1: one waiting entry, sessions x and y; x's claim matches a
row and records it, y's subsequent conditional update modifies nothing. -/
theorem matchmaking_conditional_claim_exclusive_inst :
    1 ≤ (Matchmaking.updateClaim [Matchmaking.W0] Matchmaking.W0.id "x" 5).2 ∧
    { Matchmaking.W0 with matched_with := some "x", matched_at := some 5 } ∈
      (Matchmaking.updateClaim [Matchmaking.W0] Matchmaking.W0.id "x" 5).1 ∧
    Matchmaking.updateClaim
        (Matchmaking.updateClaim [Matchmaking.W0] Matchmaking.W0.id "x" 5).1
        Matchmaking.W0.id "y" 6 =
      ((Matchmaking.updateClaim [Matchmaking.W0] Matchmaking.W0.id "x" 5).1, 0) :=
  (matchmaking_conditional_claim_exclusive [Matchmaking.W0] Matchmaking.W0 "x" "y" 5 6
    (by decide) rfl (by decide)).2

/-- C2, evaluated at the failing input: a single waiting entry W0 (session w);
sessions a and b both read W0 as their candidate before either claim runs;
session a resumes first and claims W0; session b then resumes.  Session b's
conditional update matches zero rows — b lost the race — but PostgREST
reports no error for a zero-row update, so the handler still takes the
success branch: it returns matched:true with partner w and upserts b's entry
with matchedWith = w, instead of the fresh null entry and
matched:false/searching response the claim requires.  The resulting table
shows w matched with a while b believes it is matched with w. -/
theorem matchmaking_lost_race_eval :
    Matchmaking.selectCandidate [Matchmaking.W0] "a" Matchmaking.ChatType.text =
      some Matchmaking.W0 ∧
    Matchmaking.selectCandidate [Matchmaking.W0] "b" Matchmaking.ChatType.text =
      some Matchmaking.W0 ∧
    (Matchmaking.updateClaim
        (Matchmaking.tryMatchResume [Matchmaking.W0] "a" Matchmaking.ChatType.text 5 1
          Matchmaking.W0).1
        Matchmaking.W0.id "b" 6).2 = 0 ∧
    (Matchmaking.tryMatchResume
        (Matchmaking.tryMatchResume [Matchmaking.W0] "a" Matchmaking.ChatType.text 5 1
          Matchmaking.W0).1
        "b" Matchmaking.ChatType.text 6 2 Matchmaking.W0).2 =
      ⟨true, some "w", none⟩ ∧
    (Matchmaking.tryMatchResume
        (Matchmaking.tryMatchResume [Matchmaking.W0] "a" Matchmaking.ChatType.text 5 1
          Matchmaking.W0).1
        "b" Matchmaking.ChatType.text 6 2 Matchmaking.W0).1 =
      [⟨0, "w", Matchmaking.ChatType.text, some "a", some 5, 0⟩,
       ⟨1, "a", Matchmaking.ChatType.text, some "w", some 5, 5⟩,
       ⟨2, "b", Matchmaking.ChatType.text, some "w", some 6, 6⟩] := by
  refine ⟨rfl, rfl, rfl, rfl, rfl⟩

namespace Matchmaking

theorem sessions_map (f : QueueEntry → QueueEntry)
    (hf : ∀ e, (f e).session_id = e.session_id) (store : List QueueEntry) :
    (store.map f).map QueueEntry.session_id = store.map QueueEntry.session_id := by
  rw [List.map_map]
  exact List.map_congr_left (fun e _ => hf e)

theorem countFor_map (sid : String) (f : QueueEntry → QueueEntry)
    (hf : ∀ e, (f e).session_id = e.session_id) (store : List QueueEntry) :
    countFor sid (store.map f) = countFor sid store := by
  induction store with
  | nil => rfl
  | cons e l ih =>
    simp only [countFor] at ih ⊢
    rw [List.map_cons, List.filter_cons, List.filter_cons, hf e]
    split
    · simp only [List.length_cons]
      rw [ih]
    · exact ih

theorem countFor_eq_zero (sid : String) (store : List QueueEntry)
    (h : sid ∉ store.map QueueEntry.session_id) : countFor sid store = 0 := by
  unfold countFor
  rw [List.length_eq_zero, List.filter_eq_nil_iff]
  intro e he hpe
  exact h (List.mem_map.mpr ⟨e, he, beq_iff_eq.mp hpe⟩)

theorem countFor_le_one (sid : String) (store : List QueueEntry)
    (hu : uniqueSessions store) : countFor sid store ≤ 1 := by
  induction store with
  | nil => simp [countFor]
  | cons e l ih =>
    unfold uniqueSessions at hu ih
    rw [List.map_cons, List.nodup_cons] at hu
    obtain ⟨hnm, hnd⟩ := hu
    unfold countFor at ih ⊢
    rw [List.filter_cons]
    split
    · next hpe =>
      have hesid : e.session_id = sid := beq_iff_eq.mp hpe
      rw [List.length_cons]
      have h0 : countFor sid l = 0 :=
        countFor_eq_zero sid l (by rw [← hesid]; exact hnm)
      unfold countFor at h0
      omega
    · exact ih hnd

theorem countFor_pos (sid : String) (store : List QueueEntry) (e : QueueEntry)
    (he : e ∈ store) (hsid : e.session_id = sid) : 1 ≤ countFor sid store := by
  have hmem : e ∈ store.filter (fun x => x.session_id == sid) :=
    List.mem_filter.mpr ⟨he, beq_iff_eq.mpr hsid⟩
  have hpos := List.length_pos.mpr (List.ne_nil_of_mem hmem)
  exact hpos

theorem upsert_unique_count (store : List QueueEntry) (sid : String) (ct : ChatType)
    (mw : Option String) (ma : Option Nat) (cA fI : Nat) (hu : uniqueSessions store) :
    uniqueSessions (upsertEntry store sid ct mw ma cA fI) ∧
    countFor sid (upsertEntry store sid ct mw ma cA fI) = 1 := by
  unfold upsertEntry
  by_cases hA : store.any (fun e => e.session_id == sid) = true
  · rw [if_pos hA]
    have hf : ∀ e : QueueEntry,
        ((if e.session_id == sid then
          { e with chat_type := ct, matched_with := mw, matched_at := ma }
        else e) : QueueEntry).session_id = e.session_id := by
      intro e
      split <;> rfl
    constructor
    · unfold uniqueSessions
      rw [sessions_map _ hf store]
      exact hu
    · rw [countFor_map sid _ hf store]
      obtain ⟨e, he, hpe⟩ := List.any_eq_true.mp hA
      have h1 := countFor_pos sid store e he (beq_iff_eq.mp hpe)
      have h2 := countFor_le_one sid store hu
      omega
  · rw [if_neg hA]
    have hnm : sid ∉ store.map QueueEntry.session_id := by
      intro hmem
      obtain ⟨e, he, hesid⟩ := List.mem_map.mp hmem
      exact hA (List.any_eq_true.mpr ⟨e, he, beq_iff_eq.mpr hesid⟩)
    constructor
    · unfold uniqueSessions
      rw [List.map_append, List.nodup_append]
      refine ⟨hu, List.nodup_singleton _, ?_⟩
      intro x hx hx2
      simp only [List.map_cons, List.map_nil, List.mem_singleton] at hx2
      subst hx2
      exact hnm hx
    · unfold countFor
      rw [List.filter_append, List.length_append]
      have h0 : countFor sid store = 0 := countFor_eq_zero sid store hnm
      unfold countFor at h0
      rw [h0]
      simp

theorem tryMatch_preserves (store : List QueueEntry) (sid : String) (ct : ChatType)
    (now fid : Nat) (hu : uniqueSessions store) :
    uniqueSessions (tryMatch store sid ct now fid).1 ∧
    countFor sid (tryMatch store sid ct now fid).1 = 1 := by
  have hresume : ∀ pm : QueueEntry,
      uniqueSessions (tryMatchResume store sid ct now fid pm).1 ∧
      countFor sid (tryMatchResume store sid ct now fid pm).1 = 1 := by
    intro pm
    have hu1 : uniqueSessions (updateClaim store pm.id sid now).1 := by
      unfold uniqueSessions updateClaim
      rw [sessions_map _ (claimRow_session_id pm.id sid now) store]
      exact hu
    exact upsert_unique_count (updateClaim store pm.id sid now).1 sid ct
      (some pm.session_id) (some now) now fid hu1
  cases hf : findExisting store sid with
  | some e =>
    have hf' : store.find? (fun x => x.session_id == sid) = some e := hf
    have hp := List.find?_some hf'
    have hesid : e.session_id = sid := beq_iff_eq.mp hp
    have hemem : e ∈ store := List.mem_of_find?_eq_some hf'
    by_cases hm : e.matched_with.isSome = true
    · have hgoal : (tryMatch store sid ct now fid).1 = store := by
        simp [tryMatch, hf, hm]
      rw [hgoal]
      refine ⟨hu, ?_⟩
      have h1 := countFor_pos sid store e hemem hesid
      have h2 := countFor_le_one sid store hu
      omega
    · have hm' : e.matched_with.isSome = false := Bool.not_eq_true _ ▸ eq_false_of_ne_true hm
      cases hc : selectCandidate store sid ct with
      | some pm =>
        have hgoal : tryMatch store sid ct now fid = tryMatchResume store sid ct now fid pm := by
          simp [tryMatch, hf, hm', hc]
        rw [hgoal]
        exact hresume pm
      | none =>
        have hgoal : (tryMatch store sid ct now fid).1 =
            upsertEntry store sid ct none none now fid := by
          simp [tryMatch, hf, hm', hc]
        rw [hgoal]
        exact upsert_unique_count store sid ct none none now fid hu
  | none =>
    cases hc : selectCandidate store sid ct with
    | some pm =>
      have hgoal : tryMatch store sid ct now fid = tryMatchResume store sid ct now fid pm := by
        simp [tryMatch, hf, hc]
      rw [hgoal]
      exact hresume pm
    | none =>
      have hgoal : (tryMatch store sid ct now fid).1 =
          upsertEntry store sid ct none none now fid := by
        simp [tryMatch, hf, hc]
      rw [hgoal]
      exact upsert_unique_count store sid ct none none now fid hu

theorem tryMatchIter_preserves (sid : String) (ct : ChatType) :
    ∀ (ps : List (Nat × Nat)) (store : List QueueEntry),
      uniqueSessions store → ps ≠ [] →
      uniqueSessions (tryMatchIter sid ct store ps) ∧
      countFor sid (tryMatchIter sid ct store ps) = 1 := by
  intro ps
  induction ps with
  | nil => intro store _ h; exact absurd rfl h
  | cons p ps ih =>
    intro store hu _
    have hstep := tryMatch_preserves store sid ct p.1 p.2 hu
    by_cases hps : ps = []
    · subst hps
      simpa [tryMatchIter] using hstep
    · have hrest := ih ((tryMatch store sid ct p.1 p.2).1) hstep.1 hps
      simpa [tryMatchIter] using hrest

theorem pollMatch_store (store : List QueueEntry) (s : String) :
    (pollMatch store s).1 = store := by
  cases hf : findExisting store s with
  | none => simp [pollMatch, hf]
  | some e =>
    simp only [pollMatch, hf]
    split <;> rfl

theorem cancel_unique (store : List QueueEntry) (s : String)
    (hu : uniqueSessions store) : uniqueSessions (cancel store s) := by
  unfold uniqueSessions cancel
  exact List.Nodup.sublist ((List.filter_sublist store).map QueueEntry.session_id) hu

end Matchmaking

/-- C3: the enqueue is an upsert keyed on sessionId, so any nonempty sequence
of tryMatch calls for one session leaves exactly one QueueEntry for that
session, and the at-most-one-entry-per-sessionId invariant (session ids
pairwise distinct) is preserved by tryMatch, by pollMatch (which does not
write at all) and by cancel. -/
theorem matchmaking_one_entry_per_session (store : List Matchmaking.QueueEntry)
    (sid : String) (ct : Matchmaking.ChatType) (ps : List (Nat × Nat))
    (hu : Matchmaking.uniqueSessions store) (hps : ps ≠ []) :
    Matchmaking.uniqueSessions (Matchmaking.tryMatchIter sid ct store ps) ∧
    Matchmaking.countFor sid (Matchmaking.tryMatchIter sid ct store ps) = 1 ∧
    (∀ now fid, Matchmaking.uniqueSessions (Matchmaking.tryMatch store sid ct now fid).1 ∧
      Matchmaking.countFor sid (Matchmaking.tryMatch store sid ct now fid).1 = 1) ∧
    (∀ s, (Matchmaking.pollMatch store s).1 = store) ∧
    (∀ s, Matchmaking.uniqueSessions (Matchmaking.cancel store s)) := by
  obtain ⟨h1, h2⟩ := Matchmaking.tryMatchIter_preserves sid ct ps store hu hps
  exact ⟨h1, h2, fun now fid => Matchmaking.tryMatch_preserves store sid ct now fid hu,
    fun s => Matchmaking.pollMatch_store store s,
    fun s => Matchmaking.cancel_unique store s hu⟩

/-- Witness for C3: two consecutive tryMatch calls for session a on the empty
table leave exactly one row for a. -/
theorem matchmaking_one_entry_per_session_inst :
    Matchmaking.countFor "a"
      (Matchmaking.tryMatchIter "a" Matchmaking.ChatType.text [] [(1, 1), (2, 2)]) = 1 :=
  (matchmaking_one_entry_per_session [] "a" Matchmaking.ChatType.text [(1, 1), (2, 2)]
    (by simp [Matchmaking.uniqueSessions]) (by simp)).2.1

namespace Matchmaking

theorem oldestFirst_eq_none : ∀ (l : List QueueEntry), oldestFirst l = none → l = [] := by
  intro l h
  cases l with
  | nil => rfl
  | cons e es =>
    cases hes : oldestFirst es with
    | none => simp only [oldestFirst, hes] at h; cases h
    | some m0 =>
      simp only [oldestFirst, hes] at h
      split at h <;> simp at h

theorem oldestFirst_isSome : ∀ (l : List QueueEntry), l ≠ [] →
    ∃ m, oldestFirst l = some m := by
  intro l hne
  cases hl : oldestFirst l with
  | none => exact absurd (oldestFirst_eq_none l hl) hne
  | some m => exact ⟨m, rfl⟩

theorem oldestFirst_mem : ∀ (l : List QueueEntry) (m : QueueEntry),
    oldestFirst l = some m → m ∈ l := by
  intro l
  induction l with
  | nil => intro m h; cases h
  | cons e es ih =>
    intro m h
    simp only [oldestFirst] at h
    cases hes : oldestFirst es with
    | none =>
      rw [hes] at h
      simp only [] at h
      cases h
      exact List.mem_cons_self e es
    | some m0 =>
      rw [hes] at h
      simp only [] at h
      split at h
      · cases h
        exact List.mem_cons_self e es
      · cases h
        exact List.mem_cons_of_mem e (ih _ hes)

theorem oldestFirst_min : ∀ (l : List QueueEntry) (m : QueueEntry),
    oldestFirst l = some m → ∀ e ∈ l, m.created_at ≤ e.created_at := by
  intro l
  induction l with
  | nil => intro m h; cases h
  | cons a es ih =>
    intro m h e he
    simp only [oldestFirst] at h
    cases hes : oldestFirst es with
    | none =>
      rw [hes] at h
      simp only [] at h
      cases h
      have hnil := oldestFirst_eq_none es hes
      subst hnil
      rw [List.mem_singleton] at he
      subst he
      exact le_refl _
    | some m0 =>
      rw [hes] at h
      simp only [] at h
      split at h
      · rename_i hle
        cases h
        rcases List.mem_cons.mp he with rfl | hees
        · exact le_refl _
        · exact le_trans hle (ih _ hes e hees)
      · rename_i hgt
        cases h
        rcases List.mem_cons.mp he with rfl | hees
        · exact le_of_not_le hgt
        · exact ih _ hes e hees

end Matchmaking

/-- C4: when the caller has no matched entry and at least one eligible waiter
(same chatType, matchedWith null, different sessionId) exists, the candidate
selected by tryMatch is an eligible entry whose createdAt is minimal among
all eligible entries — the oldest waiter is the one the claim targets — and
tryMatch proceeds as the claim continuation on exactly that entry. -/
theorem matchmaking_fifo_oldest_candidate (store : List Matchmaking.QueueEntry)
    (sid : String) (ct : Matchmaking.ChatType) (w : Matchmaking.QueueEntry)
    (hw : w ∈ store) (helig : Matchmaking.eligible sid ct w = true)
    (hub : ∀ e, Matchmaking.findExisting store sid = some e → e.matched_with = none) :
    ∃ c, Matchmaking.selectCandidate store sid ct = some c ∧ c ∈ store ∧
      Matchmaking.eligible sid ct c = true ∧
      (∀ e ∈ store, Matchmaking.eligible sid ct e = true →
        c.created_at ≤ e.created_at) ∧
      (∀ now fid, Matchmaking.tryMatch store sid ct now fid =
        Matchmaking.tryMatchResume store sid ct now fid c) := by
  have hwf : w ∈ store.filter (Matchmaking.eligible sid ct) :=
    List.mem_filter.mpr ⟨hw, helig⟩
  obtain ⟨c, hc⟩ := Matchmaking.oldestFirst_isSome _ (List.ne_nil_of_mem hwf)
  have hcsel : Matchmaking.selectCandidate store sid ct = some c := hc
  have hcf : c ∈ store.filter (Matchmaking.eligible sid ct) :=
    Matchmaking.oldestFirst_mem _ c hc
  refine ⟨c, hcsel, (List.mem_filter.mp hcf).1, (List.mem_filter.mp hcf).2, ?_, ?_⟩
  · intro e he helig2
    exact Matchmaking.oldestFirst_min _ c hc e (List.mem_filter.mpr ⟨he, helig2⟩)
  · intro now fid
    cases hf : Matchmaking.findExisting store sid with
    | none => simp [Matchmaking.tryMatch, hf, hcsel]
    | some e =>
      have hnone : e.matched_with.isSome = false := by
        rw [hub e hf]
        rfl
      simp [Matchmaking.tryMatch, hf, hnone, hcsel]

/-- Witness for C4: with the younger waiter W1 listed before the older waiter
W0, a new session a still selects W0, the entry with the smaller createdAt. -/
theorem matchmaking_fifo_oldest_candidate_inst :
    ∃ c, Matchmaking.selectCandidate [Matchmaking.W1, Matchmaking.W0] "a"
        Matchmaking.ChatType.text = some c ∧
      c ∈ [Matchmaking.W1, Matchmaking.W0] ∧
      Matchmaking.eligible "a" Matchmaking.ChatType.text c = true ∧
      (∀ e ∈ [Matchmaking.W1, Matchmaking.W0],
        Matchmaking.eligible "a" Matchmaking.ChatType.text e = true →
        c.created_at ≤ e.created_at) ∧
      (∀ now fid, Matchmaking.tryMatch [Matchmaking.W1, Matchmaking.W0] "a"
          Matchmaking.ChatType.text now fid =
        Matchmaking.tryMatchResume [Matchmaking.W1, Matchmaking.W0] "a"
          Matchmaking.ChatType.text now fid c) :=
  matchmaking_fifo_oldest_candidate [Matchmaking.W1, Matchmaking.W0] "a"
    Matchmaking.ChatType.text Matchmaking.W0 (by decide) (by decide)
    (fun e h => by
      rw [show Matchmaking.findExisting [Matchmaking.W1, Matchmaking.W0] "a" = none
        from rfl] at h
      cases h)
